import Mathlib

/-!
Verification of the core subsystems of the chorusing-lab repository:
the batching request queue (`src/app/api/upload/route.ts`, class
`RequestQueue`), the authenticated-client pool (`src/lib/supabase.ts`,
class `ClientPool`), and the retry-with-backoff utility
(`src/lib/api-utils.ts`).  Each definition below is a shallow embedding
of the corresponding TypeScript, translated clause by clause; machine
arithmetic (JavaScript 32-bit coercion in the token hash) is made
explicit over `Int`.
-/

namespace Chorusing

set_option maxRecDepth 100000

/-! ## JavaScript primitives used by the source -/

/-- JavaScript `ToInt32`: the effect of `hash & hash` (and of `<<`) on a
number, wrapping into the signed 32-bit range. -/
def jsToInt32 (n : Int) : Int :=
  (n + 2 ^ 31) % 2 ^ 32 - 2 ^ 31

/-- Digit characters used by `Number.prototype.toString(36)`. -/
def base36Digit (n : Nat) : Char :=
  if n < 10 then Char.ofNat (48 + n) else Char.ofNat (87 + n)

/-- Base-36 digits of a natural number (fuel-driven so that the kernel
can evaluate it; the fuel is always sufficient because `n / 36 < n`). -/
def natToBase36Aux : Nat → Nat → List Char
  | 0, _ => []
  | _ + 1, 0 => []
  | fuel + 1, n => natToBase36Aux fuel (n / 36) ++ [base36Digit (n % 36)]

/-- `Number.prototype.toString(36)` for an integer value: minus sign for
negatives, base-36 digits `0-9a-z` otherwise, `"0"` for zero. -/
def jsToString36 (n : Int) : String :=
  if n = 0 then "0"
  else if n < 0 then "-" ++ String.mk (natToBase36Aux n.natAbs n.natAbs)
  else String.mk (natToBase36Aux n.toNat n.toNat)

/-- JavaScript `String.prototype.includes`: the needle occurs as a
contiguous substring of the haystack. -/
def jsIncludes (s needle : String) : Bool :=
  decide (needle.data <:+: s.data)

/-- A JavaScript value usable as an error `code` / `statusCode`: either a
number or a string (the two shapes the source compares against). -/
inductive JsCode where
  | num (n : Int)
  | str (s : String)
deriving DecidableEq, Repr

/-- JavaScript truthiness of a code value (`0` and `""` are falsy). -/
def JsCode.truthy : JsCode → Bool
  | .num n => n != 0
  | .str s => s != ""

/-- JavaScript `ToNumber` on a code value, as used by the relational
comparison `errorCode >= 500`: numbers pass through, strings of decimal
digits parse, anything else is NaN (`none`), and NaN comparisons are
false. -/
def JsCode.toNumber : JsCode → Option Int
  | .num n => some n
  | .str s =>
    if s = "" then some 0
    else if s.data.all fun c => c.isDigit then some (s.toNat!) else none

/-- `code >= lo && code < hi` under JavaScript numeric coercion. -/
def jsCodeInRange (c : JsCode) (lo hi : Int) : Bool :=
  match c.toNumber with
  | some n => decide (lo ≤ n) && decide (n < hi)
  | none => false

/-! ## `src/lib/api-utils.ts` — error classification and retry -/

/-- The shape of a thrown error as inspected by `isTransientError`:
a `message` string and optional `code` / `statusCode` fields.  (The
source also guards `if (!error) return false` and falls back to
`error.toString()` for a falsy message; thrown errors in every claim are
objects with a message, for which those branches are inert.) -/
structure JsError where
  message : String
  code : Option JsCode := none
  statusCode : Option JsCode := none
deriving DecidableEq, Repr

/-- `error.code || error.statusCode || ''`: the first truthy of the two
fields, defaulting to the empty string. -/
def effCode (e : JsError) : JsCode :=
  match e.code with
  | some c => if c.truthy then c else
      match e.statusCode with
      | some c₂ => if c₂.truthy then c₂ else .str ""
      | none => .str ""
  | none =>
      match e.statusCode with
      | some c₂ => if c₂.truthy then c₂ else .str ""
      | none => .str ""

/-- `isTransientError` from `src/lib/api-utils.ts` (lines 114-144):
network/connection errors by message substring or undici code, HTTP 5xx
by numeric range, and 429 by strict equality. -/
def isTransientError (e : JsError) : Bool :=
  let errorMessage := e.message
  let errorCode := effCode e
  if jsIncludes errorMessage "fetch failed"
      || jsIncludes errorMessage "ECONNREFUSED"
      || jsIncludes errorMessage "ECONNRESET"
      || jsIncludes errorMessage "ETIMEDOUT"
      || jsIncludes errorMessage "timeout"
      || errorCode == .str "UND_ERR_CONNECT_TIMEOUT"
      || errorCode == .str "UND_ERR_SOCKET" then true
  else if jsCodeInRange errorCode 500 600 then true
  else if errorCode == .num 429 then true
  else false

/-- Options of `retryWithBackoff`, with the source defaults. -/
structure RetryOptions where
  maxRetries : Nat := 3
  initialDelayMs : Nat := 500
  maxDelayMs : Nat := 10000
  backoffMultiplier : Nat := 2
deriving DecidableEq, Repr

/-- Observable outcome of a `retryWithBackoff` run: the final result,
the number of invocations of the wrapped action, the delays slept (in
order) and the `onRetry(attempt, error)` notifications (in order). -/
structure RetryResult (α : Type) where
  result : Except JsError α
  calls : Nat
  delays : List Nat
  onRetryCalls : List (Nat × JsError)
deriving Repr

/-- The `for (attempt = 0; attempt <= maxRetries; attempt++)` loop of
`retryWithBackoff` (lines 169-198).  `fn k` is the outcome of the
`(k+1)`-th invocation of the wrapped action; `remaining` counts the
attempts still allowed (`maxRetries - attempt`), so `remaining = 0`
is exactly the source's `attempt >= maxRetries` final re-throw. -/
def retryLoop (opts : RetryOptions) (fn : Nat → Except JsError α) :
    Nat → Nat → RetryResult α
  | attempt, 0 =>
    -- last allowed attempt: on failure both the non-transient check and
    -- the `attempt >= maxRetries` check re-throw the error unchanged
    match fn attempt with
    | .ok v => ⟨.ok v, 1, [], []⟩
    | .error e => ⟨.error e, 1, [], []⟩
  | attempt, r + 1 =>
    match fn attempt with
    | .ok v => ⟨.ok v, 1, [], []⟩
    | .error e =>
      if ¬ isTransientError e then ⟨.error e, 1, [], []⟩
      else
        let delayMs :=
          min (opts.initialDelayMs * opts.backoffMultiplier ^ attempt)
            opts.maxDelayMs
        let rest := retryLoop opts fn (attempt + 1) r
        ⟨rest.result, rest.calls + 1, delayMs :: rest.delays,
          (attempt + 1, e) :: rest.onRetryCalls⟩

/-- `retryWithBackoff` from `src/lib/api-utils.ts` (lines 149-201). -/
def retryWithBackoff (opts : RetryOptions) (fn : Nat → Except JsError α) :
    RetryResult α :=
  retryLoop opts fn 0 opts.maxRetries

/-! ## `src/lib/supabase.ts` — JWT decoding

`decodeJWT` splits the token on dots, base64-decodes the middle segment
with Node's lenient `Buffer.from(s, 'base64')` (after mapping the
base64url characters back), decodes the bytes as text and runs
`JSON.parse`.  The decoders below model that library behavior for the
ASCII JSON payloads a JWT carries: invalid base64 characters are
skipped exactly as Node skips them, and the JSON grammar is restricted
to the forms a decoded claim set can contain (objects, arrays, strings
without escapes, integers, booleans, null). -/

/-- A parsed JSON value (integer numerics; JWT claims such as `exp` are
integral epoch seconds). -/
inductive Json where
  | jnull
  | jbool (b : Bool)
  | jnum (n : Int)
  | jstr (s : String)
  | jarr (xs : List Json)
  | jobj (fields : List (String × Json))
deriving Repr, Inhabited

/-- Value of a base64 alphabet character, `none` for any other
character (Node's decoder skips those). -/
def b64Val (c : Char) : Option Nat :=
  if 65 ≤ c.toNat ∧ c.toNat ≤ 90 then some (c.toNat - 65)
  else if 97 ≤ c.toNat ∧ c.toNat ≤ 122 then some (c.toNat - 97 + 26)
  else if 48 ≤ c.toNat ∧ c.toNat ≤ 57 then some (c.toNat - 48 + 52)
  else if c = Char.ofNat 43 then some 62
  else if c = Char.ofNat 47 then some 63
  else none

/-- Regroup a stream of 6-bit values into 8-bit bytes, dropping a
trailing fragment of fewer than 8 bits, as Node's decoder does. -/
def b64Group : List Nat → List Nat
  | a :: b :: c :: d :: rest =>
    (a * 4 + b / 16) :: (b % 16 * 16 + c / 4) :: (c % 4 * 64 + d) ::
      b64Group rest
  | [a, b] => [a * 4 + b / 16]
  | [a, b, c] => [a * 4 + b / 16, b % 16 * 16 + c / 4]
  | _ => []

/-- `Buffer.from(s, 'base64').toString('utf-8')` for an ASCII payload:
decode the base64 stream and read each byte as a character (bytes ≥ 128
would open a multi-byte UTF-8 sequence; the payloads decoded here are
plain ASCII JSON, for which byte = code point). -/
def b64DecodeAscii (s : String) : String :=
  String.mk ((b64Group (s.data.filterMap b64Val)).map fun b =>
    Char.ofNat (b % 128))

/-! Minimal recursive-descent `JSON.parse`, fuel-driven.  Parsing
operates on the list of characters and returns the value together with
the unconsumed rest; `JSON.parse` itself then demands that only
whitespace remains. -/

/-- Skip JSON whitespace. -/
def jsonWs : List Char → List Char
  | c :: cs => if c = ' ' ∨ c = '\t' ∨ c = '\n' ∨ c = '\r' then jsonWs cs
      else c :: cs
  | [] => []

/-- Parse the body of a string literal up to the closing quote (the
payloads parsed here contain no escape sequences; a backslash therefore
fails the parse, as does a missing closing quote). -/
def jsonString : List Char → Option (String × List Char)
  | c :: cs =>
    if c = Char.ofNat 34 then some ("", cs)
    else if c = Char.ofNat 92 then none
    else (jsonString cs).map fun (s, rest) => (String.mk (c :: s.data), rest)
  | [] => none

/-- Parse a nonempty run of decimal digits. -/
def jsonDigits : List Char → Option (Nat × List Char)
  | c :: cs =>
    if c.isDigit then
      match jsonDigits cs with
      | some (n, rest) =>
        some ((c.toNat - 48) * 10 ^ (cs.length - rest.length) + n, rest)
      | none => some (c.toNat - 48, cs)
    else none
  | [] => none

mutual

/-- Parse one JSON value. -/
def jsonValue : Nat → List Char → Option (Json × List Char)
  | 0, _ => none
  | fuel + 1, input =>
    match jsonWs input with
    | [] => none
    | c :: cs =>
      if c = Char.ofNat 34 then
        (jsonString cs).map fun (s, rest) => (.jstr s, rest)
      else if c = Char.ofNat 123 then jsonFields fuel true (jsonWs cs)
      else if c = '[' then jsonItems fuel true (jsonWs cs)
      else if c = '-' then
        (jsonDigits cs).map fun (n, rest) => (.jnum (-(n : Int)), rest)
      else if c.isDigit then
        (jsonDigits (c :: cs)).map fun (n, rest) => (.jnum (n : Int), rest)
      else if (c :: cs).take 4 = ['t', 'r', 'u', 'e'] then
        some (.jbool true, (c :: cs).drop 4)
      else if (c :: cs).take 5 = ['f', 'a', 'l', 's', 'e'] then
        some (.jbool false, (c :: cs).drop 5)
      else if (c :: cs).take 4 = ['n', 'u', 'l', 'l'] then
        some (.jnull, (c :: cs).drop 4)
      else none

/-- Parse the members of an object after `\x7b`; `first` marks whether
no member has been consumed yet. -/
def jsonFields : Nat → Bool → List Char → Option (Json × List Char)
  | 0, _, _ => none
  | fuel + 1, first, input =>
    match jsonWs input with
    | [] => none
    | c :: cs =>
      if c = Char.ofNat 125 then some (.jobj [], cs)
      else
        let body := if first then c :: cs else
          if c = ',' then jsonWs cs else []
        match body with
        | [] => none
        | c₂ :: cs₂ =>
          if c₂ = Char.ofNat 34 then
            match jsonString cs₂ with
            | none => none
            | some (key, rest) =>
              match jsonWs rest with
              | ':' :: rest₂ =>
                match jsonValue fuel rest₂ with
                | none => none
                | some (v, rest₃) =>
                  match jsonFields fuel false (jsonWs rest₃) with
                  | some (.jobj fields, rest₄) =>
                    some (.jobj ((key, v) :: fields), rest₄)
                  | _ => none
              | _ => none
          else none

/-- Parse the elements of an array after `[`. -/
def jsonItems : Nat → Bool → List Char → Option (Json × List Char)
  | 0, _, _ => none
  | fuel + 1, first, input =>
    match jsonWs input with
    | [] => none
    | c :: cs =>
      if c = ']' then some (.jarr [], cs)
      else
        let body := if first then c :: cs else
          if c = ',' then jsonWs cs else []
        match body with
        | [] => none
        | _ =>
          match jsonValue fuel body with
          | none => none
          | some (v, rest) =>
            match jsonItems fuel false (jsonWs rest) with
            | some (.jarr xs, rest₂) => some (.jarr (v :: xs), rest₂)
            | _ => none

end

/-- `JSON.parse`: one value, then nothing but whitespace. -/
def jsonParse (s : String) : Option Json :=
  match jsonValue (s.length + 1) s.data with
  | some (v, rest) => if jsonWs rest = [] then some v else none
  | none => none

/-- `token.split('.')` over the character list: maximal dot-free
segments, with empty segments kept (so a token with no dot yields one
segment and `"a..b"` yields three). -/
def splitOnDot : List Char → List (List Char)
  | [] => [[]]
  | c :: cs =>
    if c = '.' then [] :: splitOnDot cs
    else
      match splitOnDot cs with
      | [] => [[c]]
      | p :: ps => (c :: p) :: ps

/-- `decodeJWT` from `src/lib/supabase.ts` (lines 37-48): split on dots,
require exactly three segments, map base64url punctuation to base64,
decode and parse the payload; any failure yields `null`. -/
def decodeJWT (token : String) : Option Json :=
  let parts := splitOnDot token.data
  if parts.length ≠ 3 then none
  else
    let payload := parts[1]!
    let mapped := String.mk (payload.map fun c =>
      if c = '-' then '+' else if c = '_' then '/' else c)
    jsonParse (b64DecodeAscii mapped)

/-- JavaScript truthiness of a JSON value (for `!payload` and
`!payload.exp`). -/
def Json.truthy : Json → Bool
  | .jnull => false
  | .jbool b => b
  | .jnum n => n != 0
  | .jstr s => s != ""
  | .jarr _ => true
  | .jobj _ => true

/-- Property access `payload.exp` on a parsed JSON value. -/
def Json.get (j : Json) (key : String) : Option Json :=
  match j with
  | .jobj fields => (fields.find? fun f => f.1 == key).map (·.2)
  | _ => none

/-- JavaScript `ToNumber` of a JSON value, for the comparison
`payload.exp < now + 300` (a NaN operand makes the comparison false). -/
def Json.toNumber : Json → Option Int
  | .jnum n => some n
  | .jnull => some 0
  | .jbool b => some (if b then 1 else 0)
  | .jstr s =>
    if s = "" then some 0
    else if s.data.all fun c => c.isDigit then some (s.toNat!) else none
  | _ => none

/-! ## `src/lib/supabase.ts` — the `ClientPool` class -/

/-- `MAX_POOL_SIZE` (line 99). -/
def MAX_POOL_SIZE : Nat := 50

/-- `CLIENT_TTL` in milliseconds (line 100). -/
def CLIENT_TTL : Nat := 30 * 60 * 1000

/-- One rolling-hash step of `hashToken`:
`hash = ((hash << 5) - hash) + char; hash = hash & hash`, every
operation coerced to 32 bits exactly where JavaScript coerces. -/
def hashStep (h : Int) (c : Char) : Int :=
  jsToInt32 (jsToInt32 (h * 32) - h + c.toNat)

/-- `hashToken` (lines 144-154): fold the step over the first
`min(length, 100)` characters and render the 32-bit result in base 36.
(`charCodeAt` returns UTF-16 units; for the ASCII tokens at issue the
unit equals the code point.) -/
def hashToken (token : String) : String :=
  jsToString36 ((token.data.take 100).foldl hashStep 0)

/-- `isTokenExpired` (lines 156-166): a token is treated as expired when
it fails to decode, when its payload or `exp` claim is falsy, or when
`exp < floor(now / 1000) + 300`.  `nowMs` is `Date.now()`. -/
def isTokenExpired (token : String) (nowMs : Nat) : Bool :=
  match decodeJWT token with
  | none => true
  | some payload =>
    if ¬ payload.truthy then true
    else
      match payload.get "exp" with
      | none => true
      | some expClaim =>
        if ¬ expClaim.truthy then true
        else
          match expClaim.toNumber with
          | some exp => decide (exp < (nowMs / 1000 : Nat) + 300)
          | none => false

/-- The client handle produced by `createClient` inside
`createNewClient` (lines 200-228): identified by a construction counter
(each call constructs a distinct object) and the access token baked
into its Authorization header and storage shim. -/
structure Client where
  id : Nat
  token : String
deriving DecidableEq, Repr

/-- A pool entry (interface `PooledClient`, lines 90-95). -/
structure PooledClient where
  client : Client
  createdAt : Nat
  lastUsed : Nat
  tokenHash : String
deriving DecidableEq, Repr

/-- The pool's mutable state: the insertion-ordered `Map` keyed by the
token hash, plus the counter giving each constructed client its
identity. -/
structure PoolState where
  pool : List (String × PooledClient)
  nextClientId : Nat
deriving DecidableEq, Repr

/-- The pool at module load: empty. -/
def emptyPoolState : PoolState := ⟨[], 0⟩

/-- `Map.prototype.get`. -/
def mapGet (m : List (String × β)) (k : String) : Option β :=
  (m.find? fun e => e.1 == k).map (·.2)

/-- `Map.prototype.set`: update in place when the key exists (keeping
its position, as a JavaScript `Map` does), otherwise append. -/
def mapSet (m : List (String × β)) (k : String) (v : β) :
    List (String × β) :=
  if m.any fun e => e.1 == k then
    m.map fun e => if e.1 == k then (k, v) else e
  else m ++ [(k, v)]

/-- `createNewClient` (lines 200-228): construct a fresh handle for the
token; the pool map is untouched, only the construction counter moves. -/
def createNewClient (st : PoolState) (accessToken : String) :
    Client × PoolState :=
  (⟨st.nextClientId, accessToken⟩,
    { st with nextClientId := st.nextClientId + 1 })

/-- `getClient` (lines 168-198): expired tokens get a fresh unpooled
handle; otherwise look up by token hash, refreshing `lastUsed` on a
hit, and on a miss construct a handle and pool it only while the pool
is strictly below `MAX_POOL_SIZE`. -/
def getClient (st : PoolState) (accessToken : String) (nowMs : Nat) :
    Client × PoolState :=
  if isTokenExpired accessToken nowMs then
    createNewClient st accessToken
  else
    let tokenHash := hashToken accessToken
    match mapGet st.pool tokenHash with
    | some pooled =>
      (pooled.client,
        { st with
            pool := mapSet st.pool tokenHash
              { pooled with lastUsed := nowMs } })
    | none =>
      let fresh := createNewClient st accessToken
      if fresh.2.pool.length < MAX_POOL_SIZE then
        (fresh.1,
          { fresh.2 with
              pool := mapSet fresh.2.pool tokenHash
                { client := fresh.1, createdAt := nowMs,
                  lastUsed := nowMs, tokenHash := tokenHash } })
      else fresh

/-- The TTL pass of `cleanup` (lines 118-132): collect the keys whose
`lastUsed` age exceeds the TTL or whose `createdAt` age exceeds twice
the TTL, and delete them; equivalently, keep the others in order. -/
def ttlFilter (nowMs : Nat) (pool : List (String × PooledClient)) :
    List (String × PooledClient) :=
  pool.filter fun e =>
    ¬ ((nowMs : Int) - e.2.lastUsed > (CLIENT_TTL : Int)
      ∨ (nowMs : Int) - e.2.createdAt > (CLIENT_TTL : Int) * 2)

/-- `cleanup` (lines 118-142): the TTL pass, then, if the pool is still
over `MAX_POOL_SIZE`, eviction of the least-recently-used entries
(stable sort by `lastUsed`, delete the excess head). -/
def cleanup (st : PoolState) (nowMs : Nat) : PoolState :=
  let kept := ttlFilter nowMs st.pool
  if kept.length > MAX_POOL_SIZE then
    let sorted := kept.mergeSort fun a b => a.2.lastUsed ≤ b.2.lastUsed
    let toRemove := sorted.take (kept.length - MAX_POOL_SIZE)
    { st with
        pool := kept.filter fun e => ¬ toRemove.any fun r => r.1 == e.1 }
  else { st with pool := kept }

/-- `clear` (lines 230-232). -/
def poolClear (st : PoolState) : PoolState := { st with pool := [] }

/-- Pool states reachable through the class interface: the pool starts
empty and evolves only by `getClient`, the interval-driven `cleanup`,
and `clear`. -/
inductive PoolReachable : PoolState → Prop where
  | init : PoolReachable emptyPoolState
  | getClient {st} (token : String) (nowMs : Nat) :
      PoolReachable st → PoolReachable (getClient st token nowMs).2
  | cleanup {st} (nowMs : Nat) :
      PoolReachable st → PoolReachable (cleanup st nowMs)
  | clear {st} : PoolReachable st → PoolReachable (poolClear st)

/-- Folding `getClient` over a list of tokens, each call at time
`nowMs`, discarding the returned handles. -/
def foldGetClient (st : PoolState) (tokens : List String) (nowMs : Nat) :
    PoolState :=
  tokens.foldl (fun st t => (getClient st t nowMs).2) st

/-! ## `src/app/api/upload/route.ts` — the `RequestQueue` class

The class runs on Node's single-threaded cooperative scheduler: its
fields are mutated only inside synchronous sections, which interleave
only at `await` points and timer callbacks.  The labelled transition
system below has one transition per such synchronous section —
`queueRequest` (with its `addToBatch`/`processBatch` tail), a batch
idle-timer firing (`processBatch`), the drain loop dispatching the head
unit, a dispatched action settling (the `.finally` decrement), and the
drain loop exiting when idle.  Every cooperative scheduling of the real
class is a trace of this system.  The fields `arrived`, `dispatched`
and `immediateFlushes` are observation-only history variables; no
transition reads them. -/

/-- `MAX_CONCURRENT` (line 299). -/
def MAX_CONCURRENT : Nat := 10

/-- `MAX_BATCH_SIZE` (line 301). -/
def MAX_BATCH_SIZE : Nat := 20

/-- The options argument of `queueRequest` (lines 310-313). -/
structure EnqOptions where
  batchKey : Option String
  priority : Option Nat
deriving DecidableEq, Repr

/-- A pending batch (interface `RequestBatch`): the queued unit ids in
arrival order and the handle of the armed idle timer, if any. -/
structure PendingBatch where
  requests : List Nat
  timeoutId : Option Nat
deriving DecidableEq, Repr

/-- The queue's state.  Units are represented by their ids; `queue` is
the main FIFO, `currentConcurrent` the in-flight counter, `processing`
the re-entrancy guard of `processQueue`, `pendingBatches` the key-keyed
batch map, and `nextTimer` a source of fresh timer handles. -/
structure QueueState where
  queue : List Nat
  processing : Bool
  currentConcurrent : Nat
  pendingBatches : List (String × PendingBatch)
  nextTimer : Nat
  arrived : List Nat
  dispatched : List Nat
  immediateFlushes : Nat
deriving DecidableEq, Repr

/-- The queue at construction time. -/
def initQueueState : QueueState :=
  ⟨[], false, 0, [], 0, [], [], 0⟩

/-- `Map.prototype.delete` for the batch map. -/
def mapDelete (m : List (String × β)) (k : String) : List (String × β) :=
  m.filter fun e => ¬ e.1 == k

/-- The flush body of `processBatch` (lines 374-391) once the batch is
known to exist: clear its timer, append its units as a contiguous block
to the main queue, drop it from the map, and make sure the drain loop
is running. -/
def flushBatch (s : QueueState) (key : String) (b : PendingBatch) :
    QueueState :=
  { s with
      queue := s.queue ++ b.requests,
      pendingBatches := mapDelete s.pendingBatches key,
      processing := true }

/-- `addToBatch` (lines 342-369): append the unit to the key's batch
(creating it if absent); flush immediately when the batch reaches
`MAX_BATCH_SIZE`, otherwise clear any armed timer and arm a fresh
one. -/
def addToBatch (s : QueueState) (key : String) (id : Nat) : QueueState :=
  let batch₀ := (mapGet s.pendingBatches key).getD ⟨[], none⟩
  let batch := { batch₀ with requests := batch₀.requests ++ [id] }
  if batch.requests.length ≥ MAX_BATCH_SIZE then
    let s := flushBatch s key batch
    { s with immediateFlushes := s.immediateFlushes + 1 }
  else
    { s with
        pendingBatches := mapSet s.pendingBatches key
          { batch with timeoutId := some s.nextTimer },
        nextTimer := s.nextTimer + 1 }

/-- `queueRequest` (lines 308-337): route the unit to its batch or to
the main queue, then ensure the drain loop is running (`processQueue`
sets `processing` on entry, so the flag is true on return either
way).  `opts.priority` is accepted here and read nowhere. -/
def queueRequest (s : QueueState) (id : Nat) (opts : EnqOptions) :
    QueueState :=
  let s :=
    match opts.batchKey with
    | some key => addToBatch s key id
    | none => { s with queue := s.queue ++ [id], arrived := s.arrived ++ [id] }
  { s with processing := true }

/-- Events labelling the synchronous sections of the class. -/
inductive QEvent where
  | enqueue (id : Nat) (opts : EnqOptions)
  | timerFire (key : String)
  | dispatch
  | complete (resolvedOk : Bool)
  | idleExit
deriving DecidableEq, Repr

/-- One transition.  `none` means the event is not enabled in this
state (its guard, read off the source, fails):

* `enqueue` — a `queueRequest` call;
* `timerFire` — the idle timer of an existing, armed batch fires and
  runs `processBatch` (a cleared timer never fires);
* `dispatch` — the drain loop's shift/increment section, which the
  source reaches only with the loop running, a nonempty queue, and
  `currentConcurrent < MAX_CONCURRENT` (the inner wait loop cannot be
  exited at the ceiling while the queue is nonempty);
* `complete` — a dispatched action settles (resolved or rejected: the
  `.finally` handler decrements either way);
* `idleExit` — the outer loop condition fails and `processing` drops. -/
def step (s : QueueState) : QEvent → Option QueueState
  | .enqueue id opts => some (queueRequest s id opts)
  | .timerFire key =>
    match mapGet s.pendingBatches key with
    | some b => if b.timeoutId.isSome then some (flushBatch s key b) else none
    | none => none
  | .dispatch =>
    match s.queue with
    | [] => none
    | id :: rest =>
      if s.processing ∧ s.currentConcurrent < MAX_CONCURRENT then
        some { s with
                 queue := rest,
                 currentConcurrent := s.currentConcurrent + 1,
                 dispatched := s.dispatched ++ [id] }
      else none
  | .complete _ =>
    if s.currentConcurrent > 0 then
      some { s with currentConcurrent := s.currentConcurrent - 1 }
    else none
  | .idleExit =>
    if s.processing ∧ s.queue = [] ∧ s.currentConcurrent = 0 then
      some { s with processing := false }
    else none

/-- Run a list of events from a state; `none` as soon as one is not
enabled. -/
def run (s : QueueState) : List QEvent → Option QueueState
  | [] => some s
  | e :: es =>
    match step s e with
    | some s₂ => run s₂ es
    | none => none

/-- `executeRequest` (lines 428-435) settles a unit's promise with
exactly what its action produced. -/
inductive ExecOutcome (ε α : Type) where
  | resolved (v : α)
  | rejected (e : ε)
deriving DecidableEq, Repr

/-- `executeRequest`: await the action; resolve with its value, or
reject with the caught error. -/
def executeRequest (fn : Unit → Except ε α) : ExecOutcome ε α :=
  match fn () with
  | .ok v => .resolved v
  | .error e => .rejected e

/-- Events that neither join a batch nor flush one. -/
def QEvent.noBatch : QEvent → Bool
  | .enqueue _ opts => opts.batchKey.isNone
  | .timerFire _ => false
  | _ => true

/-- A dispatch followed by a settlement, `n` times — the trace that
drains `n` queued units one at a time; `ok` is carried into each
`complete`. -/
def drainEvents : Nat → Bool → List QEvent
  | 0, _ => []
  | n + 1, ok => .dispatch :: .complete ok :: drainEvents n ok

/-! ## Concrete scenario data for witnesses and counterexamples -/

/-- A concrete batch-free trace for the C1 witness: two enqueues, two
dispatch/settle rounds, idle exit. -/
def c1Trace : List QEvent :=
  [.enqueue 1 ⟨none, none⟩, .enqueue 2 ⟨none, none⟩, .dispatch,
   .complete true, .dispatch, .complete true, .idleExit]

/-- The state `c1Trace` ends in. -/
def c1Final : QueueState := ⟨[], false, 0, [], 0, [1, 2], [1, 2], 0⟩

/-- Twenty-five units enqueued in rapid succession under the batch key
`"votes"`. -/
def c2AddEvents : List QEvent :=
  (List.range 25).map fun i => .enqueue (i + 1) ⟨some "votes", none⟩

/-- The queue state right after the 25 rapid enqueues: the first 20
units were flushed to the main queue by the one immediate (size-
triggered) flush, the batch holds the remaining 5 with its idle timer
armed, and the flush counter reads exactly 1. -/
def c2StateAfterAdds : QueueState :=
  ⟨(List.range 20).map (· + 1), true, 0,
    [("votes", ⟨(List.range 5).map (· + 21), some 23⟩)], 24, [], [], 1⟩

/-- The state after the idle timer fires: all 25 units queued in order,
no pending batch left. -/
def c2StateAfterTimer : QueueState :=
  ⟨(List.range 25).map (· + 1), true, 0, [], 24, [], [], 1⟩

/-- The state after dispatching and resolving all 25 units. -/
def c2StateDrained : QueueState :=
  ⟨[], true, 0, [], 24, [], (List.range 25).map (· + 1), 1⟩

/-- A concrete trace for the C6 witness: two enqueued units, the first
already dispatched (in flight). -/
def c6Trace : List QEvent :=
  [.enqueue 1 ⟨none, none⟩, .enqueue 2 ⟨none, none⟩, .dispatch]

/-- The state `c6Trace` ends in. -/
def c6State : QueueState := ⟨[2], true, 1, [], 0, [1, 2], [1], 0⟩

/-- Erase the inert `priority` field of an enqueue event. -/
def erasePriority : QEvent → QEvent
  | .enqueue id opts => .enqueue id ⟨opts.batchKey, none⟩
  | e => e

/-- The C3 witness error: a plain timeout, transient by message. -/
def timeoutError : JsError := ⟨"timeout", none, none⟩

/-- The C7 witness error: a 404-style lookup failure, permanent. -/
def notFoundError : JsError := ⟨"row not found", some (.num 404), none⟩

def c4Tokens : List String :=
  ["h.eyJleHAiOjk5OTk5OTk5OTl9.s00",
   "h.eyJleHAiOjk5OTk5OTk5OTl9.s01",
   "h.eyJleHAiOjk5OTk5OTk5OTl9.s02",
   "h.eyJleHAiOjk5OTk5OTk5OTl9.s03",
   "h.eyJleHAiOjk5OTk5OTk5OTl9.s04",
   "h.eyJleHAiOjk5OTk5OTk5OTl9.s05",
   "h.eyJleHAiOjk5OTk5OTk5OTl9.s06",
   "h.eyJleHAiOjk5OTk5OTk5OTl9.s07",
   "h.eyJleHAiOjk5OTk5OTk5OTl9.s08",
   "h.eyJleHAiOjk5OTk5OTk5OTl9.s09",
   "h.eyJleHAiOjk5OTk5OTk5OTl9.s10",
   "h.eyJleHAiOjk5OTk5OTk5OTl9.s11",
   "h.eyJleHAiOjk5OTk5OTk5OTl9.s12",
   "h.eyJleHAiOjk5OTk5OTk5OTl9.s13",
   "h.eyJleHAiOjk5OTk5OTk5OTl9.s14",
   "h.eyJleHAiOjk5OTk5OTk5OTl9.s15",
   "h.eyJleHAiOjk5OTk5OTk5OTl9.s16",
   "h.eyJleHAiOjk5OTk5OTk5OTl9.s17",
   "h.eyJleHAiOjk5OTk5OTk5OTl9.s18",
   "h.eyJleHAiOjk5OTk5OTk5OTl9.s19",
   "h.eyJleHAiOjk5OTk5OTk5OTl9.s20",
   "h.eyJleHAiOjk5OTk5OTk5OTl9.s21",
   "h.eyJleHAiOjk5OTk5OTk5OTl9.s22",
   "h.eyJleHAiOjk5OTk5OTk5OTl9.s23",
   "h.eyJleHAiOjk5OTk5OTk5OTl9.s24",
   "h.eyJleHAiOjk5OTk5OTk5OTl9.s25",
   "h.eyJleHAiOjk5OTk5OTk5OTl9.s26",
   "h.eyJleHAiOjk5OTk5OTk5OTl9.s27",
   "h.eyJleHAiOjk5OTk5OTk5OTl9.s28",
   "h.eyJleHAiOjk5OTk5OTk5OTl9.s29",
   "h.eyJleHAiOjk5OTk5OTk5OTl9.s30",
   "h.eyJleHAiOjk5OTk5OTk5OTl9.s31",
   "h.eyJleHAiOjk5OTk5OTk5OTl9.s32",
   "h.eyJleHAiOjk5OTk5OTk5OTl9.s33",
   "h.eyJleHAiOjk5OTk5OTk5OTl9.s34",
   "h.eyJleHAiOjk5OTk5OTk5OTl9.s35",
   "h.eyJleHAiOjk5OTk5OTk5OTl9.s36",
   "h.eyJleHAiOjk5OTk5OTk5OTl9.s37",
   "h.eyJleHAiOjk5OTk5OTk5OTl9.s38",
   "h.eyJleHAiOjk5OTk5OTk5OTl9.s39",
   "h.eyJleHAiOjk5OTk5OTk5OTl9.s40",
   "h.eyJleHAiOjk5OTk5OTk5OTl9.s41",
   "h.eyJleHAiOjk5OTk5OTk5OTl9.s42",
   "h.eyJleHAiOjk5OTk5OTk5OTl9.s43",
   "h.eyJleHAiOjk5OTk5OTk5OTl9.s44",
   "h.eyJleHAiOjk5OTk5OTk5OTl9.s45",
   "h.eyJleHAiOjk5OTk5OTk5OTl9.s46",
   "h.eyJleHAiOjk5OTk5OTk5OTl9.s47",
   "h.eyJleHAiOjk5OTk5OTk5OTl9.s48",
   "h.eyJleHAiOjk5OTk5OTk5OTl9.s49",
   "h.eyJleHAiOjk5OTk5OTk5OTl9.s50",
   "h.eyJleHAiOjk5OTk5OTk5OTl9.s51",
   "h.eyJleHAiOjk5OTk5OTk5OTl9.s52",
   "h.eyJleHAiOjk5OTk5OTk5OTl9.s53",
   "h.eyJleHAiOjk5OTk5OTk5OTl9.s54"]

/-- The C5 witness pool: one pooled entry with client id 3, counter 7. -/
def c5PoolState : PoolState :=
  ⟨[("k", ⟨⟨3, "t"⟩, 0, 0, "k"⟩)], 7⟩

/-- First C10 witness token: long enough that its first 100 characters
cover the header and payload, with the signature beyond them. -/
def c10TokenA : String :=
  "h.eyJleHAiOjk5OTk5OTk5OTksInN1YiI6InVzZXItYWFhYWFhYWFhYWFhYWFhYWFhYWFhYWFhYWFhYWFhYWFhYWFhYWFhYWFhYWFhYWFhYWEifQ.sigAAA"

/-- Second C10 witness token: same first 100 characters, different
signature. -/
def c10TokenB : String :=
  "h.eyJleHAiOjk5OTk5OTk5OTksInN1YiI6InVzZXItYWFhYWFhYWFhYWFhYWFhYWFhYWFhYWFhYWFhYWFhYWFhYWFhYWFhYWFhYWFhYWFhYWEifQ.sigBBB"

/-! ## Queue lemmas -/

theorem queueRequest_currentConcurrent (s : QueueState) (id : Nat)
    (opts : EnqOptions) :
    (queueRequest s id opts).currentConcurrent = s.currentConcurrent := by
  unfold queueRequest addToBatch flushBatch
  cases opts.batchKey with
  | none => rfl
  | some key => dsimp only; split <;> rfl

theorem queueRequest_processing (s : QueueState) (id : Nat)
    (opts : EnqOptions) : (queueRequest s id opts).processing = true := rfl

/-- Any single transition keeps the in-flight counter at or below the
ceiling: only `dispatch` increments it, and its guard requires strict
inequality. -/
theorem step_concurrent_le {s s₂ : QueueState} {e : QEvent}
    (h : step s e = some s₂) (hle : s.currentConcurrent ≤ MAX_CONCURRENT) :
    s₂.currentConcurrent ≤ MAX_CONCURRENT := by
  cases e with
  | enqueue id opts =>
    simp only [step, Option.some.injEq] at h
    subst h
    rw [queueRequest_currentConcurrent]
    exact hle
  | timerFire key =>
    simp only [step] at h
    split at h
    · split at h
      · cases h
        exact hle
      · cases h
    · cases h
  | dispatch =>
    simp only [step] at h
    split at h
    · cases h
    · split at h
      · rename_i hcond
        cases h
        have hlt : s.currentConcurrent < 10 := hcond.2
        show s.currentConcurrent + 1 ≤ 10
        omega
      · cases h
  | complete ok =>
    simp only [step] at h
    split at h
    · cases h
      have hle10 : s.currentConcurrent ≤ 10 := hle
      show s.currentConcurrent - 1 ≤ 10
      omega
    · cases h
  | idleExit =>
    simp only [step] at h
    split at h
    · cases h
      exact hle
    · cases h

/-- A transition by an event that touches no batch preserves the ledger
equation: what has arrived directly is what has been dispatched followed
by what still waits. -/
theorem step_fifo {s s₂ : QueueState} {e : QEvent}
    (h : step s e = some s₂) (hnb : e.noBatch = true)
    (hinv : s.arrived = s.dispatched ++ s.queue) :
    s₂.arrived = s₂.dispatched ++ s₂.queue := by
  cases e with
  | enqueue id opts =>
    simp only [step, Option.some.injEq] at h
    subst h
    cases hbk : opts.batchKey with
    | none =>
      unfold queueRequest
      rw [hbk]
      show s.arrived ++ [id] = s.dispatched ++ (s.queue ++ [id])
      rw [hinv, List.append_assoc]
    | some key => simp [QEvent.noBatch, hbk] at hnb
  | timerFire key => simp [QEvent.noBatch] at hnb
  | dispatch =>
    simp only [step] at h
    split at h
    · cases h
    · rename_i id rest hq
      split at h
      · cases h
        show s.arrived = (s.dispatched ++ [id]) ++ rest
        rw [hinv, hq, List.append_assoc, List.singleton_append]
      · cases h
  | complete ok =>
    simp only [step] at h
    split at h
    · cases h
      exact hinv
    · cases h
  | idleExit =>
    simp only [step] at h
    split at h
    · cases h
      exact hinv
    · cases h

/-- Every transition preserves "a nonempty queue means the drain loop is
running": whatever puts work on the queue also (re)starts the loop, and
the loop exits only on an empty queue. -/
theorem step_queue_processing {s s₂ : QueueState} {e : QEvent}
    (h : step s e = some s₂) (hp : s.queue ≠ [] → s.processing = true) :
    s₂.queue ≠ [] → s₂.processing = true := by
  cases e with
  | enqueue id opts =>
    simp only [step, Option.some.injEq] at h
    subst h
    intro _
    exact queueRequest_processing s id opts
  | timerFire key =>
    simp only [step] at h
    split at h
    · split at h
      · cases h
        intro _
        rfl
      · cases h
    · cases h
  | dispatch =>
    simp only [step] at h
    split at h
    · cases h
    · rename_i id rest hq
      split at h
      · rename_i hcond
        cases h
        intro _
        exact hcond.1
      · cases h
  | complete ok =>
    simp only [step] at h
    split at h
    · cases h
      exact hp
    · cases h
  | idleExit =>
    simp only [step] at h
    split at h
    · rename_i hcond
      cases h
      intro hne
      exact absurd hcond.2.1 hne
    · cases h

/-- The concurrency ceiling along a whole run. -/
theorem run_concurrent_le :
    ∀ (es : List QEvent) (s₀ s : QueueState), run s₀ es = some s →
      s₀.currentConcurrent ≤ MAX_CONCURRENT →
      s.currentConcurrent ≤ MAX_CONCURRENT := by
  intro es
  induction es with
  | nil =>
    intro s₀ s h hle
    simp only [run, Option.some.injEq] at h
    subst h
    exact hle
  | cons e es ih =>
    intro s₀ s h hle
    simp only [run] at h
    split at h
    · rename_i s₁ hstep
      exact ih s₁ s h (step_concurrent_le hstep hle)
    · cases h

/-- The ledger equation along a batch-free run. -/
theorem run_fifo :
    ∀ (es : List QEvent) (s₀ s : QueueState), run s₀ es = some s →
      (∀ e ∈ es, e.noBatch = true) →
      s₀.arrived = s₀.dispatched ++ s₀.queue →
      s.arrived = s.dispatched ++ s.queue := by
  intro es
  induction es with
  | nil =>
    intro s₀ s h _ hinv
    simp only [run, Option.some.injEq] at h
    subst h
    exact hinv
  | cons e es ih =>
    intro s₀ s h hnb hinv
    simp only [run] at h
    split at h
    · rename_i s₁ hstep
      exact ih s₁ s h (fun x hx => hnb x (List.mem_cons_of_mem e hx))
        (step_fifo hstep (hnb e (List.mem_cons_self e es)) hinv)
    · cases h

/-- The queue-nonempty-implies-processing invariant along a whole run. -/
theorem run_queue_processing :
    ∀ (es : List QEvent) (s₀ s : QueueState), run s₀ es = some s →
      (s₀.queue ≠ [] → s₀.processing = true) →
      (s.queue ≠ [] → s.processing = true) := by
  intro es
  induction es with
  | nil =>
    intro s₀ s h hp
    simp only [run, Option.some.injEq] at h
    subst h
    exact hp
  | cons e es ih =>
    intro s₀ s h hp
    simp only [run] at h
    split at h
    · rename_i s₁ hstep
      exact ih s₁ s h (step_queue_processing hstep hp)
    · cases h

/-- Running a concatenation is running the pieces in order. -/
theorem run_append (s : QueueState) (l₁ l₂ : List QEvent) :
    run s (l₁ ++ l₂) =
      match run s l₁ with
      | some s₂ => run s₂ l₂
      | none => none := by
  induction l₁ generalizing s with
  | nil => rfl
  | cons e l₁ ih =>
    simp only [List.cons_append, run]
    cases step s e with
    | none => rfl
    | some s₁ => exact ih s₁

/-- Characterization of a `dispatch` transition when its guard holds. -/
theorem step_dispatch_eq {s : QueueState} {id : Nat} {rest : List Nat}
    (hq : s.queue = id :: rest) (hproc : s.processing = true)
    (hcc : s.currentConcurrent < MAX_CONCURRENT) :
    step s .dispatch =
      some { s with queue := rest,
                    currentConcurrent := s.currentConcurrent + 1,
                    dispatched := s.dispatched ++ [id] } := by
  obtain ⟨q, proc, cc, pb, nt, arr, disp, fl⟩ := s
  replace hq : q = id :: rest := hq
  subst hq
  replace hproc : proc = true := hproc
  subst hproc
  replace hcc : cc < MAX_CONCURRENT := hcc
  simp only [step]
  rw [if_pos]
  exact ⟨by trivial, hcc⟩

/-- Characterization of a `complete` transition when a unit is in
flight. -/
theorem step_complete_eq {s : QueueState} (b : Bool)
    (hcc : s.currentConcurrent > 0) :
    step s (.complete b) =
      some { s with currentConcurrent := s.currentConcurrent - 1 } := by
  simp only [step]
  rw [if_pos hcc]

/-- Running from an enabled first event continues from its target. -/
theorem run_cons_some {s s₁ : QueueState} {e : QEvent} {es : List QEvent}
    (h : step s e = some s₁) : run s (e :: es) = run s₁ es := by
  simp only [run, h]

/-- Settling every in-flight unit (with either outcome) is always
enabled and empties the in-flight counter, touching nothing else. -/
theorem run_completes (b : Bool) :
    ∀ (n : Nat) (s : QueueState), s.currentConcurrent = n →
      run s (List.replicate n (.complete b)) =
        some { s with currentConcurrent := 0 } := by
  intro n
  induction n with
  | zero =>
    intro s hcc
    simp only [List.replicate, run, Option.some.injEq]
    rw [← hcc]
  | succ n ih =>
    intro s hcc
    rw [List.replicate_succ, run_cons_some (step_complete_eq b (by omega)),
      ih _ (by show s.currentConcurrent - 1 = n; omega)]

/-- With no unit in flight and the drain loop running, dispatching and
settling each queued unit in turn drains the whole queue, extending the
dispatch history by exactly the queued block, in order. -/
theorem run_drain (b : Bool) :
    ∀ (q : List Nat) (s : QueueState), s.queue = q →
      s.currentConcurrent = 0 → (s.queue ≠ [] → s.processing = true) →
      run s (drainEvents q.length b) =
        some { s with queue := [], dispatched := s.dispatched ++ q } := by
  intro q
  induction q with
  | nil =>
    intro s hq hcc _
    simp only [List.length_nil, drainEvents, run, Option.some.injEq]
    rw [List.append_nil, ← hq]
  | cons id rest ih =>
    intro s hq hcc hp
    have hproc : s.processing = true := hp (by rw [hq]; simp)
    have h₁ : run s (drainEvents (id :: rest).length b) =
        run { s with queue := rest,
                     currentConcurrent := s.currentConcurrent + 1,
                     dispatched := s.dispatched ++ [id] }
          (.complete b :: drainEvents rest.length b) :=
      run_cons_some (step_dispatch_eq hq hproc (by rw [hcc]; decide))
    have h₂ : run ({ s with queue := rest,
                            currentConcurrent := s.currentConcurrent + 1,
                            dispatched := s.dispatched ++ [id] } : QueueState)
          (.complete b :: drainEvents rest.length b) =
        run { s with queue := rest,
                     currentConcurrent := s.currentConcurrent + 1 - 1,
                     dispatched := s.dispatched ++ [id] }
          (drainEvents rest.length b) :=
      run_cons_some (step_complete_eq b (Nat.succ_pos s.currentConcurrent))
    have h₃ := ih { s with queue := rest,
                           currentConcurrent := s.currentConcurrent + 1 - 1,
                           dispatched := s.dispatched ++ [id] }
      rfl (by show s.currentConcurrent + 1 - 1 = 0; omega) (fun _ => hproc)
    rw [h₁, h₂, h₃]
    simp [List.append_assoc]

/-! ## Claim C1 -/

/-- C1: for every sequence of actions enqueued via `queueRequest`
without a `batchKey`, the queue dispatches them strictly in enqueue
order (the dispatch history followed by the still-queued units is
exactly the arrival history), and in every reachable state the
in-flight counter `currentConcurrent` is at most the concurrency
ceiling `MAX_CONCURRENT = 10`. -/
theorem c1_fifo_dispatch_and_concurrency_ceiling
    (es : List QEvent) (s : QueueState)
    (hrun : run initQueueState es = some s)
    (hnb : ∀ e ∈ es, e.noBatch = true) :
    s.currentConcurrent ≤ MAX_CONCURRENT ∧
    s.arrived = s.dispatched ++ s.queue :=
  ⟨run_concurrent_le es initQueueState s hrun (by decide),
   run_fifo es initQueueState s hrun hnb rfl⟩

/-- Witness for C1 at the concrete trace `c1Trace`. -/
theorem c1_fifo_dispatch_and_concurrency_ceiling_witness :
    run initQueueState c1Trace = some c1Final ∧
    (c1Final.currentConcurrent ≤ MAX_CONCURRENT ∧
      c1Final.arrived = c1Final.dispatched ++ c1Final.queue) :=
  ⟨by decide,
   c1_fifo_dispatch_and_concurrency_ceiling c1Trace c1Final (by decide)
     (by decide)⟩

/-! ## Claim C2 -/

/-- C2: enqueueing 25 units with the same `batchKey` in rapid
succession produces exactly one immediate flush
(`immediateFlushes = 1`), of the first `MAX_BATCH_SIZE = 20` units,
leaving the remaining 5 in a pending batch whose 50 ms idle timer is
armed; when that timer fires the 5 are flushed behind the first 20; and
dispatching then resolving each unit in turn settles all 25 promises,
with the dispatch history listing all 25 units in enqueue order. -/
theorem c2_batch_flush_scenario :
    run initQueueState c2AddEvents = some c2StateAfterAdds ∧
    run initQueueState (c2AddEvents ++ [.timerFire "votes"]) =
      some c2StateAfterTimer ∧
    run initQueueState
        (c2AddEvents ++ [.timerFire "votes"] ++ drainEvents 25 true) =
      some c2StateDrained := by
  decide

/-! ## Claim C6 -/

/-- C6: the promise of a queued unit settles with exactly what its
action produced — `executeRequest` resolves with precisely the action's
value and rejects with precisely its thrown error — and failures are
isolated: from any reachable state, settling every in-flight unit as a
failure and then dispatching and failing each queued unit still drains
the queue completely, with the dispatch history extended by exactly the
queued units, so a failing action never aborts the drain loop nor
affects sibling units. -/
theorem c6_roundtrip_and_failure_isolation {α ε : Type}
    (fn : Unit → Except ε α) (v : α) (e : ε)
    (es : List QEvent) (s : QueueState)
    (hrun : run initQueueState es = some s) :
    (executeRequest fn = .resolved v ↔ fn () = .ok v) ∧
    (executeRequest fn = .rejected e ↔ fn () = .error e) ∧
    ((run s (List.replicate s.currentConcurrent (.complete false) ++
        drainEvents s.queue.length false)).map fun s₂ =>
        (s₂.dispatched, s₂.queue, s₂.currentConcurrent)) =
      some (s.dispatched ++ s.queue, [], 0) := by
  refine ⟨?_, ?_, ?_⟩
  · cases hfn : fn () <;> simp [executeRequest, hfn]
  · cases hfn : fn () <;> simp [executeRequest, hfn]
  · have hp : s.queue ≠ [] → s.processing = true :=
      run_queue_processing es initQueueState s hrun
        (fun h => absurd rfl h)
    have hd := run_drain false s.queue
      { s with currentConcurrent := 0 } rfl rfl hp
    have hall : run s (List.replicate s.currentConcurrent
          (.complete false) ++ drainEvents s.queue.length false) =
        some { s with currentConcurrent := 0, queue := [],
                      dispatched := s.dispatched ++ s.queue } := by
      rw [run_append, run_completes false s.currentConcurrent s rfl]
      exact hd
    rw [hall]
    rfl

/-- Witness for C6 at a concrete action, value, error and trace. -/
theorem c6_roundtrip_and_failure_isolation_witness :
    (executeRequest (fun _ => (.ok 7 : Except Nat Nat)) = .resolved 7 ↔
      (fun _ => (.ok 7 : Except Nat Nat)) () = .ok 7) ∧
    (executeRequest (fun _ => (.ok 7 : Except Nat Nat)) = .rejected 0 ↔
      (fun _ => (.ok 7 : Except Nat Nat)) () = .error 0) ∧
    ((run c6State (List.replicate c6State.currentConcurrent (.complete false) ++
        drainEvents c6State.queue.length false)).map fun s₂ =>
        (s₂.dispatched, s₂.queue, s₂.currentConcurrent)) =
      some (c6State.dispatched ++ c6State.queue, [], 0) :=
  c6_roundtrip_and_failure_isolation (fun _ => .ok 7) 7 0 c6Trace c6State
    (by decide)

/-! ## Claim C8 -/

/-- A single transition never reads `priority`. -/
theorem step_erasePriority (s : QueueState) (e : QEvent) :
    step s (erasePriority e) = step s e := by
  cases e with
  | enqueue id opts =>
    cases opts with
    | mk bk pri => cases bk <;> rfl
  | timerFire key => rfl
  | dispatch => rfl
  | complete ok => rfl
  | idleExit => rfl

/-- Whole runs are invariant under changing priorities. -/
theorem run_erasePriority :
    ∀ (es₁ es₂ : List QEvent) (s : QueueState),
      es₁.map erasePriority = es₂.map erasePriority →
      run s es₁ = run s es₂ := by
  intro es₁
  induction es₁ with
  | nil =>
    intro es₂ s h
    cases es₂ with
    | nil => rfl
    | cons e t => simp at h
  | cons e₁ t₁ ih =>
    intro es₂ s h
    cases es₂ with
    | nil => simp at h
    | cons e₂ t₂ =>
      simp only [List.map_cons, List.cons.injEq] at h
      have hstep : step s e₁ = step s e₂ := by
        rw [← step_erasePriority s e₁, h.1, step_erasePriority]
      simp only [run]
      rw [hstep]
      cases hs : step s e₂ with
      | none => rfl
      | some s₂ => simp only [hs]; exact ih t₂ s₂ h.2

/-- C8: the `priority` option of `queueRequest` has no effect — any two
event sequences that are identical except for the priority values
passed to enqueue produce exactly the same run (same states, hence same
dispatch order and the same results). -/
theorem c8_priority_is_inert (es₁ es₂ : List QEvent)
    (h : es₁.map erasePriority = es₂.map erasePriority) :
    run initQueueState es₁ = run initQueueState es₂ :=
  run_erasePriority es₁ es₂ initQueueState h

/-- Witness for C8: two traces differing only in priorities. -/
theorem c8_priority_is_inert_witness :
    run initQueueState
        [.enqueue 1 ⟨none, some 5⟩, .enqueue 2 ⟨some "k", some 7⟩] =
      run initQueueState
        [.enqueue 1 ⟨none, some 99⟩, .enqueue 2 ⟨some "k", none⟩] :=
  c8_priority_is_inert _ _ (by decide)

/-! ## Claim C3 -/

/-- On an action failing every attempt with a transient error, the
retry loop starting at attempt `a` with `r` retries left performs
`r + 1` calls, sleeps the capped exponential delay before each retry,
notifies `onRetry` once per retry, and re-throws the error of the last
attempt itself. -/
theorem retryLoop_transient_failures (opts : RetryOptions)
    (fn : Nat → Except JsError α) (errs : Nat → JsError)
    (hf : ∀ k, fn k = .error (errs k))
    (ht : ∀ k, isTransientError (errs k) = true) :
    ∀ (r a : Nat), retryLoop opts fn a r =
      ⟨.error (errs (a + r)), r + 1,
        (List.range r).map fun i =>
          min (opts.initialDelayMs * opts.backoffMultiplier ^ (a + i))
            opts.maxDelayMs,
        (List.range r).map fun i => (a + i + 1, errs (a + i))⟩ := by
  intro r
  induction r with
  | zero =>
    intro a
    simp [retryLoop, hf a]
  | succ r ih =>
    intro a
    have harith : ∀ i : Nat, a + 1 + i = a + (i + 1) := fun i => by omega
    simp only [retryLoop, hf a, ht a, not_true, if_false, ih (a + 1),
      List.range_succ_eq_map, List.map_cons, List.map_map, harith,
      Nat.add_zero, RetryResult.mk.injEq]
    simp [Function.comp, Nat.succ_eq_add_one]

/-- C3: `retryWithBackoff` on an action that always fails with a
transient error, with `maxRetries = 3`, `initialDelayMs = 500`,
`backoffMultiplier = 2`, `maxDelayMs = 10000` (the source defaults),
calls the action exactly `maxRetries + 1 = 4` times, waits
`min(initialDelayMs * backoffMultiplier ^ attempt, maxDelayMs)`
milliseconds before each retry — the deterministic sequence 500, 1000,
2000 ms — invokes `onRetry` once per retry, and finally propagates the
last error itself, never a synthetic wrapper. -/
theorem c3_backoff_deterministic_sequence
    (fn : Nat → Except JsError α) (errs : Nat → JsError)
    (hf : ∀ k, fn k = .error (errs k))
    (ht : ∀ k, isTransientError (errs k) = true) :
    retryWithBackoff ⟨3, 500, 10000, 2⟩ fn =
      ⟨.error (errs 3), 4, [500, 1000, 2000],
        [(1, errs 0), (2, errs 1), (3, errs 2)]⟩ := by
  rw [retryWithBackoff,
    retryLoop_transient_failures ⟨3, 500, 10000, 2⟩ fn errs hf ht 3 0]
  norm_num [List.range_succ]

/-- The witness error is classified transient (by its message). -/
theorem timeoutError_transient : isTransientError timeoutError = true := by
  decide

/-- Witness for C3 at the concrete always-timeout action. -/
theorem c3_backoff_deterministic_sequence_witness :
    retryWithBackoff ⟨3, 500, 10000, 2⟩
        (fun _ => (.error timeoutError : Except JsError Nat)) =
      ⟨.error timeoutError, 4, [500, 1000, 2000],
        [(1, timeoutError), (2, timeoutError), (3, timeoutError)]⟩ :=
  c3_backoff_deterministic_sequence (fun _ => .error timeoutError)
    (fun _ => timeoutError) (fun _ => rfl) (fun _ => timeoutError_transient)

/-! ## Claim C7 -/

/-- C7: when the wrapped action fails with an error that none of the
transient clauses matches — no network/connection/timeout message
substring, no undici connect/socket code, no HTTP 5xx, no 429 — the
classifier reports it permanent and `retryWithBackoff` propagates that
very error immediately: the action runs exactly once, no delay is
slept, and `onRetry` is never invoked, whatever the options. -/
theorem c7_permanent_error_propagates_immediately
    (opts : RetryOptions) (e : JsError) (fn : Nat → Except JsError α)
    (hf : fn 0 = .error e)
    (hm1 : jsIncludes e.message "fetch failed" = false)
    (hm2 : jsIncludes e.message "ECONNREFUSED" = false)
    (hm3 : jsIncludes e.message "ECONNRESET" = false)
    (hm4 : jsIncludes e.message "ETIMEDOUT" = false)
    (hm5 : jsIncludes e.message "timeout" = false)
    (hc1 : effCode e ≠ .str "UND_ERR_CONNECT_TIMEOUT")
    (hc2 : effCode e ≠ .str "UND_ERR_SOCKET")
    (h5xx : jsCodeInRange (effCode e) 500 600 = false)
    (h429 : effCode e ≠ .num 429) :
    isTransientError e = false ∧
    retryWithBackoff opts fn = ⟨.error e, 1, [], []⟩ := by
  have htrans : isTransientError e = false := by
    simp [isTransientError, hm1, hm2, hm3, hm4, hm5, h5xx,
      beq_eq_false_iff_ne.mpr hc1, beq_eq_false_iff_ne.mpr hc2,
      beq_eq_false_iff_ne.mpr h429]
  refine ⟨htrans, ?_⟩
  rw [retryWithBackoff]
  cases hmr : opts.maxRetries with
  | zero => simp [retryLoop, hf]
  | succ m => simp [retryLoop, hf, htrans]

/-- Witness for C7 at the concrete permanent error. -/
theorem c7_permanent_error_propagates_immediately_witness :
    isTransientError notFoundError = false ∧
    retryWithBackoff ⟨3, 500, 10000, 2⟩
        (fun _ => (.error notFoundError : Except JsError Nat)) =
      ⟨.error notFoundError, 1, [], []⟩ :=
  c7_permanent_error_propagates_immediately ⟨3, 500, 10000, 2⟩
    notFoundError (fun _ => .error notFoundError) rfl (by decide)
    (by decide) (by decide) (by decide) (by decide) (by decide)
    (by decide) (by decide) (by decide)

/-! ## Pool map lemmas -/

theorem mapGet_eq_none {β : Type} (m : List (String × β)) (k : String) :
    mapGet m k = none ↔ k ∉ m.map Prod.fst := by
  induction m with
  | nil => simp [mapGet, List.find?]
  | cons e m ih =>
    rw [mapGet]
    cases hb : (e.1 == k) with
    | true =>
      simp only [List.find?, hb]
      have hk : e.1 = k := by simpa [beq_iff_eq] using hb
      simp [hk]
    | false =>
      simp only [List.find?, hb]
      rw [mapGet] at ih
      have hk : ¬ k = e.1 := by
        intro hh
        simp [hh] at hb
      simp only [List.map_cons, List.mem_cons]
      rw [ih]
      tauto

theorem mapGet_none_iff_any_false {β : Type} (m : List (String × β))
    (k : String) :
    mapGet m k = none ↔ (m.any fun e => e.1 == k) = false := by
  induction m with
  | nil => simp [mapGet, List.find?]
  | cons e m ih =>
    rw [mapGet]
    cases hb : (e.1 == k) with
    | true => simp [List.find?, hb]
    | false =>
      simp only [List.find?, hb, List.any_cons, Bool.false_or]
      rw [mapGet] at ih
      exact ih

theorem mapGet_mapSet {β : Type} (m : List (String × β)) (k : String)
    (v : β) : mapGet (mapSet m k v) k = some v := by
  rw [mapSet]
  by_cases hmem : (m.any fun e => e.1 == k) = true
  · rw [if_pos hmem]
    induction m with
    | nil => simp at hmem
    | cons e m ih =>
      by_cases he : (e.1 == k) = true
      · simp [mapGet, List.find?, he]
      · simp only [List.any_cons, he, Bool.false_or] at hmem
        simp only [List.map_cons, he, if_neg, Bool.false_eq_true,
          not_false_iff]
        rw [mapGet]
        simp only [List.find?, he]
        exact ih hmem
  · rw [if_neg hmem]
    induction m with
    | nil => simp [mapGet, List.find?]
    | cons e m ih =>
      simp only [List.any_cons, Bool.or_eq_true, not_or] at hmem
      have he : (e.1 == k) = false := by
        cases hb : (e.1 == k) <;> simp_all
      simp only [List.cons_append]
      rw [mapGet]
      simp only [List.find?, he]
      exact ih (by simp [hmem.2])

theorem mapSet_length_mem {β : Type} (m : List (String × β)) (k : String)
    (v : β) (h : (m.any fun e => e.1 == k) = true) :
    (mapSet m k v).length = m.length := by
  simp [mapSet, h]

theorem mapSet_length_new {β : Type} (m : List (String × β)) (k : String)
    (v : β) (h : (m.any fun e => e.1 == k) = false) :
    (mapSet m k v).length = m.length + 1 := by
  simp [mapSet, h]

theorem mapSet_append {β : Type} (m : List (String × β)) (k : String)
    (v : β) (h : (m.any fun e => e.1 == k) = false) :
    mapSet m k v = m ++ [(k, v)] := by
  simp [mapSet, h]

/-! ## Pool behavior lemmas -/

/-- Any token the claim describes — undecodable, or carrying an `exp`
claim within 300 seconds of now — is treated as expired by
`isTokenExpired`. -/
theorem isTokenExpired_of_soon_or_undecodable (token : String)
    (nowMs : Nat)
    (hexp : decodeJWT token = none ∨
      ∃ p, decodeJWT token = some p ∧
        ∃ expVal : Int, p.get "exp" = some (.jnum expVal) ∧
          expVal < (nowMs / 1000 : Nat) + 300) :
    isTokenExpired token nowMs = true := by
  rw [isTokenExpired]
  rcases hexp with h | ⟨p, hp, expVal, hget, hlt⟩
  · rw [h]
  · simp only [hp]
    by_cases htr : p.truthy = true
    · rw [if_neg (by simp [htr])]
      simp only [hget]
      by_cases hz : (Json.jnum expVal).truthy = true
      · rw [if_neg (by simp [hz])]
        simp only [Json.toNumber]
        simpa using hlt
      · rw [if_pos (by simpa using hz)]
    · rw [if_pos (by simpa using htr)]

/-- `getClient` on a valid token missing from a non-full pool: a fresh
handle is constructed and pooled under the token hash. -/
theorem getClient_miss_insert (st : PoolState) (t : String) (T : Nat)
    (hv : isTokenExpired t T = false)
    (hmiss : mapGet st.pool (hashToken t) = none)
    (hlt : st.pool.length < MAX_POOL_SIZE) :
    getClient st t T =
      (⟨st.nextClientId, t⟩,
        { pool := mapSet st.pool (hashToken t)
            ⟨⟨st.nextClientId, t⟩, T, T, hashToken t⟩,
          nextClientId := st.nextClientId + 1 }) := by
  rw [getClient, if_neg (by simp [hv])]
  dsimp only
  simp only [hmiss, createNewClient]
  rw [if_pos hlt]

/-- `getClient` on a valid token missing from a full pool: a fresh
handle is constructed and the pool is left untouched. -/
theorem getClient_miss_full (st : PoolState) (t : String) (T : Nat)
    (hv : isTokenExpired t T = false)
    (hmiss : mapGet st.pool (hashToken t) = none)
    (hge : ¬ st.pool.length < MAX_POOL_SIZE) :
    getClient st t T =
      (⟨st.nextClientId, t⟩,
        { pool := st.pool, nextClientId := st.nextClientId + 1 }) := by
  rw [getClient, if_neg (by simp [hv])]
  dsimp only
  simp only [hmiss, createNewClient]
  rw [if_neg hge]

/-- `getClient` never pushes the pool above `MAX_POOL_SIZE`: the insert
is guarded by a strict size check. -/
theorem getClient_pool_length_le (st : PoolState) (token : String)
    (nowMs : Nat) (h : st.pool.length ≤ MAX_POOL_SIZE) :
    (getClient st token nowMs).2.pool.length ≤ MAX_POOL_SIZE := by
  rw [getClient]
  split
  · exact h
  · dsimp only
    split
    · rename_i pooled hget
      have hany : (st.pool.any fun e => e.1 == hashToken token) = true := by
        cases hb : (st.pool.any fun e => e.1 == hashToken token) with
        | true => rfl
        | false =>
          rw [← mapGet_none_iff_any_false] at hb
          rw [hb] at hget
          cases hget
      show (mapSet st.pool (hashToken token) _).length ≤ MAX_POOL_SIZE
      rw [mapSet_length_mem _ _ _ hany]
      exact h
    · rename_i hget
      split
      · rename_i hlt
        show (mapSet st.pool (hashToken token) _).length ≤ MAX_POOL_SIZE
        rw [mapSet_length_new _ _ _
          ((mapGet_none_iff_any_false _ _).mp hget)]
        have hlt2 : st.pool.length < MAX_POOL_SIZE := hlt
        omega
      · exact h

/-- On a pool within its bound, `cleanup` is the TTL pass alone: the
LRU-trimming branch tests `> MAX_POOL_SIZE` and is not taken. -/
theorem cleanup_eq_of_small (st : PoolState) (nowMs : Nat)
    (h : st.pool.length ≤ MAX_POOL_SIZE) :
    cleanup st nowMs = { st with pool := ttlFilter nowMs st.pool } := by
  rw [cleanup]
  have hk : (ttlFilter nowMs st.pool).length ≤ MAX_POOL_SIZE :=
    le_trans (List.length_filter_le _ _) h
  rw [if_neg (by omega)]

/-- Folding `getClient` over distinct valid tokens from a pool of
fresh entries: the pool keys extend, in order, by the hashes of exactly
as many leading tokens as fit under `MAX_POOL_SIZE`, and every entry
keeps creation and last-use stamps equal to the call time. -/
theorem foldGetClient_keys (T : Nat) :
    ∀ (ts : List String) (st : PoolState),
      (∀ t ∈ ts, isTokenExpired t T = false) →
      ((st.pool.map Prod.fst) ++ ts.map hashToken).Nodup →
      (∀ e ∈ st.pool, e.2.createdAt = T ∧ e.2.lastUsed = T) →
      (foldGetClient st ts T).pool.map Prod.fst =
        st.pool.map Prod.fst ++
          ((ts.take (MAX_POOL_SIZE - st.pool.length)).map hashToken) ∧
      ∀ e ∈ (foldGetClient st ts T).pool,
        e.2.createdAt = T ∧ e.2.lastUsed = T := by
  intro ts
  induction ts with
  | nil =>
    intro st hv hnd htime
    refine ⟨by simp [foldGetClient], ?_⟩
    simpa [foldGetClient] using htime
  | cons t ts ih =>
    intro st hv hnd htime
    have hstepfold : foldGetClient st (t :: ts) T =
        foldGetClient (getClient st t T).2 ts T := rfl
    have hnd3 := List.nodup_append.mp hnd
    have hnotmem : hashToken t ∉ st.pool.map Prod.fst := fun hmem =>
      hnd3.2.2 hmem (by simp)
    have hmiss : mapGet st.pool (hashToken t) = none :=
      (mapGet_eq_none _ _).mpr hnotmem
    have hany := (mapGet_none_iff_any_false _ _).mp hmiss
    by_cases hlt : st.pool.length < MAX_POOL_SIZE
    · have hg := getClient_miss_insert st t T (hv t (by simp)) hmiss hlt
      have happ := mapSet_append st.pool (hashToken t)
        (⟨⟨st.nextClientId, t⟩, T, T, hashToken t⟩ : PooledClient) hany
      have hpool2 : (getClient st t T).2.pool = st.pool ++
          [(hashToken t,
            (⟨⟨st.nextClientId, t⟩, T, T, hashToken t⟩ : PooledClient))] := by
        rw [hg]
        exact happ
      have hlen2 : (getClient st t T).2.pool.length =
          st.pool.length + 1 := by
        rw [hpool2]
        simp
      have ihres := ih (getClient st t T).2
        (fun x hx => hv x (by simp [hx]))
        (by rw [hpool2]; simpa [List.append_assoc] using hnd)
        (by
          intro e he
          rw [hpool2] at he
          rcases List.mem_append.mp he with h1 | h2
          · exact htime e h1
          · simp at h2
            simp [h2])
      refine ⟨?_, by rw [hstepfold]; exact ihres.2⟩
      rw [hstepfold, ihres.1, hlen2, hpool2]
      have htake : MAX_POOL_SIZE - st.pool.length =
          (MAX_POOL_SIZE - (st.pool.length + 1)) + 1 := by omega
      rw [htake]
      simp [List.take_succ_cons, List.append_assoc]
    · have hg := getClient_miss_full st t T (hv t (by simp)) hmiss hlt
      have hpool2 : (getClient st t T).2.pool = st.pool := by rw [hg]
      have ihres := ih (getClient st t T).2
        (fun x hx => hv x (by simp [hx]))
        (by
          rw [hpool2]
          exact hnd.sublist
            (List.Sublist.append_left (List.sublist_cons_self _ _) _))
        (by rw [hpool2]; exact htime)
      refine ⟨?_, by rw [hstepfold]; exact ihres.2⟩
      rw [hstepfold, ihres.1, hpool2]
      have hz : MAX_POOL_SIZE - st.pool.length = 0 := by omega
      rw [hz]
      simp

/-! ## Claim C5 -/

/-- C5: for every token whose decoded `exp` claim lies within 300
seconds of now, or that cannot be decoded at all, each `getClient` call
constructs and returns a fresh handle — never one held in the pool —
and leaves the pool map completely unchanged, even across repeated
calls with the same token. -/
theorem c5_expired_tokens_bypass_pool (st : PoolState) (token : String)
    (nowMs : Nat)
    (hexp : decodeJWT token = none ∨
      ∃ p, decodeJWT token = some p ∧
        ∃ expVal : Int, p.get "exp" = some (.jnum expVal) ∧
          expVal < (nowMs / 1000 : Nat) + 300)
    (hids : ∀ e ∈ st.pool, e.2.client.id < st.nextClientId) :
    (getClient st token nowMs).2.pool = st.pool ∧
    (getClient (getClient st token nowMs).2 token nowMs).2.pool =
      st.pool ∧
    (getClient st token nowMs).1 = ⟨st.nextClientId, token⟩ ∧
    (getClient (getClient st token nowMs).2 token nowMs).1 =
      ⟨st.nextClientId + 1, token⟩ ∧
    ∀ e ∈ st.pool, e.2.client ≠ (getClient st token nowMs).1 ∧
      e.2.client ≠ (getClient (getClient st token nowMs).2 token nowMs).1 := by
  have hx := isTokenExpired_of_soon_or_undecodable token nowMs hexp
  simp only [getClient, hx, if_true, createNewClient]
  refine ⟨trivial, trivial, trivial, trivial, ?_⟩
  intro e he
  have h1 := hids e he
  constructor <;> intro heq <;>
    (have h2 := congrArg Client.id heq; simp at h2; omega)

/-- Witness for C5: an undecodable token against a one-entry pool. -/
theorem c5_expired_tokens_bypass_pool_witness :
    (getClient c5PoolState "x" 5000).2.pool = c5PoolState.pool ∧
    (getClient (getClient c5PoolState "x" 5000).2 "x" 5000).2.pool =
      c5PoolState.pool ∧
    (getClient c5PoolState "x" 5000).1 = ⟨7, "x"⟩ ∧
    (getClient (getClient c5PoolState "x" 5000).2 "x" 5000).1 =
      ⟨7 + 1, "x"⟩ ∧
    ∀ e ∈ c5PoolState.pool, e.2.client ≠ (getClient c5PoolState "x" 5000).1 ∧
      e.2.client ≠
        (getClient (getClient c5PoolState "x" 5000).2 "x" 5000).1 :=
  c5_expired_tokens_bypass_pool c5PoolState "x" 5000 (Or.inl rfl)
    (by decide)

/-! ## Claim C9 -/

/-- C9: through the public interface the pool size never exceeds
`MAX_POOL_SIZE = 50` at any moment — `getClient` inserts only when the
size is strictly below the maximum — and consequently on every
reachable state `cleanup` reduces to its TTL pass alone: the
LRU-trimming branch is unreachable. -/
theorem c9_pool_bounded_and_trim_unreachable (s : PoolState)
    (h : PoolReachable s) :
    s.pool.length ≤ MAX_POOL_SIZE ∧
    ∀ nowMs, cleanup s nowMs = { s with pool := ttlFilter nowMs s.pool } := by
  have hlen : s.pool.length ≤ MAX_POOL_SIZE := by
    induction h with
    | init => decide
    | getClient token nowMs hr ih =>
      exact getClient_pool_length_le _ token nowMs ih
    | cleanup nowMs hr ih =>
      rename_i st
      calc (Chorusing.cleanup st nowMs).pool.length
          ≤ st.pool.length := by
            rw [cleanup_eq_of_small st nowMs ih]
            exact List.length_filter_le _ _
        _ ≤ MAX_POOL_SIZE := ih
    | clear hr ih => simp [poolClear]
  exact ⟨hlen, fun nowMs => cleanup_eq_of_small s nowMs hlen⟩

/-- Witness for C9 at a concrete reachable state (one `getClient` from
the empty pool). -/
theorem c9_pool_bounded_and_trim_unreachable_witness :
    (getClient emptyPoolState "x" 0).2.pool.length ≤ MAX_POOL_SIZE ∧
    cleanup (getClient emptyPoolState "x" 0).2 777 =
      { (getClient emptyPoolState "x" 0).2 with
          pool := ttlFilter 777 (getClient emptyPoolState "x" 0).2.pool } :=
  have h := c9_pool_bounded_and_trim_unreachable _
    (PoolReachable.getClient "x" 0 PoolReachable.init)
  ⟨h.1, h.2 777⟩

/-! ## Claim C10 -/

/-- C10: the credential hash depends only on the first 100 characters
of the token, and a cache hit compares hashes, never raw tokens: for
two distinct valid non-expired tokens agreeing on their first 100
characters, `getClient` with the second token right after the first
returns the very client that was constructed with the first token's
credentials (its Authorization header carries the first token). -/
theorem c10_hash_prefix_collision (t₁ t₂ : String) (nowMs : Nat)
    (st : PoolState)
    (h100 : t₁.data.take 100 = t₂.data.take 100)
    (hv₁ : isTokenExpired t₁ nowMs = false)
    (hv₂ : isTokenExpired t₂ nowMs = false)
    (hmiss : mapGet st.pool (hashToken t₁) = none)
    (hroom : st.pool.length < MAX_POOL_SIZE) :
    hashToken t₁ = hashToken t₂ ∧
    (getClient (getClient st t₁ nowMs).2 t₂ nowMs).1 =
      (getClient st t₁ nowMs).1 ∧
    (getClient st t₁ nowMs).1.token = t₁ := by
  have hhash : hashToken t₁ = hashToken t₂ := by
    rw [hashToken, hashToken, h100]
  have h1 := getClient_miss_insert st t₁ nowMs hv₁ hmiss hroom
  refine ⟨hhash, ?_, by rw [h1]⟩
  rw [h1]
  rw [getClient, if_neg (by simp [hv₂])]
  dsimp only
  rw [← hhash]
  simp only [mapGet_mapSet]

/-- Witness for C10: two long decodable tokens sharing their first 100
characters, differing only in the signature segment. -/
theorem c10_hash_prefix_collision_witness :
    hashToken c10TokenA = hashToken c10TokenB ∧
    (getClient (getClient emptyPoolState c10TokenA 1000000).2 c10TokenB
        1000000).1 =
      (getClient emptyPoolState c10TokenA 1000000).1 ∧
    (getClient emptyPoolState c10TokenA 1000000).1.token = c10TokenA :=
  c10_hash_prefix_collision c10TokenA c10TokenB 1000000 emptyPoolState
    (by decide) (by decide) (by decide) rfl (by decide)

/-! ## Claim C4 -/

/-- C4 counterexample: with the 55 concrete distinct valid tokens of
`c4Tokens`, after 55 `getClient` calls and one cleanup pass the pool
does hold exactly `MAX_POOL_SIZE = 50` entries, but they are NOT the
most recently used ones: the entry keyed by the first (least recently
used) token's hash is present while no entry exists for the 55th (most
recently used) token — its hash is absent, because `getClient` refused
to insert once the pool was full. -/
theorem c4_counterexample :
    (cleanup (foldGetClient emptyPoolState c4Tokens 1000000)
        1000000).pool.length = MAX_POOL_SIZE ∧
    (mapGet (cleanup (foldGetClient emptyPoolState c4Tokens 1000000)
        1000000).pool (hashToken "h.eyJleHAiOjk5OTk5OTk5OTl9.s00")).isSome =
      true ∧
    mapGet (cleanup (foldGetClient emptyPoolState c4Tokens 1000000)
        1000000).pool (hashToken "h.eyJleHAiOjk5OTk5OTk5OTl9.s54") =
      none := by
  refine ⟨by decide, by decide, by decide⟩

/-- C4 (amended): after calling `getClient` with `MAX_POOL_SIZE + 5`
distinct valid (non-expired, pairwise non-colliding) tokens and then
running one cleanup pass, the pool holds exactly `MAX_POOL_SIZE`
entries — but they are the entries of the FIRST `MAX_POOL_SIZE` tokens,
in insertion order (the least recently used ones): once the pool is
full, `getClient` serves the remaining tokens unpooled, and cleanup's
LRU trim has nothing to remove. -/
theorem c4_pool_retains_first_fifty (ts : List String) (T : Nat)
    (hlen : ts.length = MAX_POOL_SIZE + 5)
    (hv : ∀ t ∈ ts, isTokenExpired t T = false)
    (hnd : (ts.map hashToken).Nodup) :
    (cleanup (foldGetClient emptyPoolState ts T) T).pool.map Prod.fst =
      (ts.take MAX_POOL_SIZE).map hashToken ∧
    (cleanup (foldGetClient emptyPoolState ts T) T).pool.length =
      MAX_POOL_SIZE := by
  have hres := foldGetClient_keys T ts emptyPoolState hv
    (by simpa [emptyPoolState] using hnd) (by simp [emptyPoolState])
  have hkeys : (foldGetClient emptyPoolState ts T).pool.map Prod.fst =
      (ts.take MAX_POOL_SIZE).map hashToken := by
    simpa [emptyPoolState] using hres.1
  have hfil : ttlFilter T (foldGetClient emptyPoolState ts T).pool =
      (foldGetClient emptyPoolState ts T).pool := by
    rw [ttlFilter, List.filter_eq_self]
    intro e he
    have ht := hres.2 e he
    simp [ht.1, ht.2, CLIENT_TTL]
  have hlength : (foldGetClient emptyPoolState ts T).pool.length =
      MAX_POOL_SIZE := by
    have h2 := congrArg List.length hkeys
    simp only [List.length_map, List.length_take, hlen] at h2
    rw [h2]
    omega
  have hclean := cleanup_eq_of_small (foldGetClient emptyPoolState ts T) T
    (le_of_eq hlength)
  rw [hclean]
  constructor
  · show (ttlFilter T _).map Prod.fst = _
    rw [hfil, hkeys]
  · show (ttlFilter T _).length = _
    rw [hfil, hlength]

/-- Witness for the amended C4 at the 55 concrete tokens. -/
theorem c4_pool_retains_first_fifty_witness :
    (cleanup (foldGetClient emptyPoolState c4Tokens 1000000)
        1000000).pool.map Prod.fst =
      (c4Tokens.take MAX_POOL_SIZE).map hashToken ∧
    (cleanup (foldGetClient emptyPoolState c4Tokens 1000000)
        1000000).pool.length = MAX_POOL_SIZE :=
  c4_pool_retains_first_fifty c4Tokens 1000000 (by decide) (by decide)
    (by decide)

end Chorusing
